import Mathlib

/-!
Shallow embedding of the `gpt-md-classifier` repository
(`src/gpt_md_classifier_app.py`, `src/app.py`) and verification of the
spec's claims about it.

Conventions of the embedding:
* Python lists / insertion-ordered dicts become Lean `List`s
  (association lists for dicts, which preserve insertion order like
  Python 3.7+ dicts and `collections.defaultdict`).
* Python byte strings become `List Nat` (each entry a byte value).
* Calls into external collaborators (the OpenAI endpoints, `pdfplumber`,
  the Streamlit slider's user choice) are passed in as explicit oracle
  arguments, so every theorem quantifies over all possible behaviours of
  the collaborator.
* A raised Python exception is an `Except.error` carrying the message;
  `st.warning` / `st.error` side effects are returned as lists of strings.
-/

namespace GptMdClassifier

/-- One entry of `file_infos` in `gpt_md_classifier_app.py`: the dict
`{"filename": ..., "content": ..., "tags": ...}`. -/
structure FileInfo where
  filename : String
  content : String
  tags : List String
deriving Repr, DecidableEq

/-- One entry of the `grouped` dict produced by `group_by_tags`
(key `group_name`, value `{"files": ..., "keywords": ...}`).
Python's `list(set(...))` iterates a hash set in unspecified order; the
embedding fixes first-occurrence order via `List.dedup`. -/
structure Group where
  name : String
  files : List String
  keywords : List String
deriving Repr, DecidableEq

/-- `tag_to_files[tag].append(info)` on an insertion-ordered
`defaultdict(list)` represented as an association list: append `info`
to the bucket of `tag`, creating the bucket at the end if absent. -/
def insertTag (acc : List (String × List FileInfo)) (tag : String) (info : FileInfo) :
    List (String × List FileInfo) :=
  match acc with
  | [] => [(tag, [info])]
  | (t, fs) :: rest =>
    if t = tag then (t, fs ++ [info]) :: rest
    else (t, fs) :: insertTag rest tag info

/-- The first loop of `group_by_tags` (src/gpt_md_classifier_app.py:108-111):
bucket every file under each of its tags, tags in first-seen order. -/
def tag_to_files (file_infos : List FileInfo) : List (String × List FileInfo) :=
  file_infos.foldl (fun acc info => info.tags.foldl (fun a tag => insertTag a tag info) acc) []

/-- The second loop of `group_by_tags` (src/gpt_md_classifier_app.py:113-127):
walk the tag buckets in order, keeping in each group only the files whose
filename was not claimed by an earlier group; skip empty groups. -/
def groupLoop : List (String × List FileInfo) → List String → Nat → List Group
  | [], _, _ => []
  | (tag, files) :: rest, used, group_num =>
    let group_files := files.filter (fun f => f.filename ∉ used)
    if group_files.isEmpty then
      groupLoop rest used group_num
    else
      { name := "Group " ++ toString group_num ++ ": " ++ tag,
        files := group_files.map (fun f => f.filename),
        keywords := (group_files.flatMap (fun f => f.tags)).dedup } ::
      groupLoop rest (used ++ group_files.map (fun f => f.filename)) (group_num + 1)

/-- `group_by_tags` (src/gpt_md_classifier_app.py:107-129). -/
def group_by_tags (file_infos : List FileInfo) : List Group :=
  groupLoop (tag_to_files file_infos) [] 1

theorem mem_insertTag (acc : List (String × List FileInfo)) (t : String) (i x : FileInfo) :
    (∃ p ∈ insertTag acc t i, x ∈ p.2) ↔ (∃ p ∈ acc, x ∈ p.2) ∨ x = i := by
  induction acc with
  | nil => simp [insertTag]
  | cons b rest ih =>
    obtain ⟨t', fs⟩ := b
    by_cases h : t' = t
    · simp only [insertTag, if_pos h, List.mem_cons]
      constructor
      · rintro ⟨p, hp | hp, hx⟩
        · subst hp; rcases List.mem_append.mp hx with hx | hx
          · exact Or.inl ⟨(t', fs), Or.inl rfl, hx⟩
          · exact Or.inr (List.mem_singleton.mp hx)
        · exact Or.inl ⟨p, Or.inr hp, hx⟩
      · rintro (⟨p, hp | hp, hx⟩ | rfl)
        · subst hp; exact ⟨(t', fs ++ [i]), Or.inl rfl, List.mem_append.mpr (Or.inl hx)⟩
        · exact ⟨p, Or.inr hp, hx⟩
        · exact ⟨(t', fs ++ [x]), Or.inl rfl, List.mem_append.mpr (Or.inr (List.mem_singleton.mpr rfl))⟩
    · simp only [insertTag, if_neg h, List.mem_cons]
      constructor
      · rintro ⟨p, hp | hp, hx⟩
        · exact Or.inl ⟨p, Or.inl hp, hx⟩
        · rcases ih.mp ⟨p, hp, hx⟩ with h' | h'
          · obtain ⟨q, hq, hxq⟩ := h'; exact Or.inl ⟨q, Or.inr hq, hxq⟩
          · exact Or.inr h'
      · rintro (⟨p, hp | hp, hx⟩ | rfl)
        · exact ⟨p, Or.inl hp, hx⟩
        · obtain ⟨q, hq, hxq⟩ := ih.mpr (Or.inl ⟨p, hp, hx⟩)
          exact ⟨q, Or.inr hq, hxq⟩
        · obtain ⟨q, hq, hxq⟩ := ih.mpr (Or.inr rfl)
          exact ⟨q, Or.inr hq, hxq⟩

theorem mem_foldl_insertTag (i x : FileInfo) :
    ∀ (tags : List String) (acc : List (String × List FileInfo)),
      (∃ p ∈ tags.foldl (fun a tag => insertTag a tag i) acc, x ∈ p.2) ↔
        (∃ p ∈ acc, x ∈ p.2) ∨ (x = i ∧ tags ≠ []) := by
  intro tags
  induction tags with
  | nil => simp
  | cons t ts ih =>
    intro acc
    rw [List.foldl_cons, ih, mem_insertTag]
    constructor
    · rintro ((h | rfl) | ⟨rfl, _⟩)
      · exact Or.inl h
      · exact Or.inr ⟨rfl, List.cons_ne_nil _ _⟩
      · exact Or.inr ⟨rfl, List.cons_ne_nil _ _⟩
    · rintro (h | ⟨rfl, _⟩)
      · exact Or.inl (Or.inl h)
      · exact Or.inl (Or.inr rfl)

theorem mem_tag_to_files (file_infos : List FileInfo) (x : FileInfo) :
    (∃ p ∈ tag_to_files file_infos, x ∈ p.2) ↔ x ∈ file_infos ∧ x.tags ≠ [] := by
  suffices h : ∀ acc,
      (∃ p ∈ file_infos.foldl
          (fun acc info => info.tags.foldl (fun a tag => insertTag a tag info) acc) acc,
        x ∈ p.2) ↔
        (∃ p ∈ acc, x ∈ p.2) ∨ (x ∈ file_infos ∧ x.tags ≠ []) by
    simpa [tag_to_files] using h []
  induction file_infos with
  | nil => simp
  | cons f fs ih =>
    intro acc
    rw [List.foldl_cons, ih, mem_foldl_insertTag]
    constructor
    · rintro ((h | ⟨rfl, hne⟩) | ⟨hmem, hne⟩)
      · exact Or.inl h
      · exact Or.inr ⟨List.mem_cons_self _ _, hne⟩
      · exact Or.inr ⟨List.mem_cons_of_mem _ hmem, hne⟩
    · rintro (h | ⟨hmem, hne⟩)
      · exact Or.inl (Or.inl h)
      · rcases List.mem_cons.mp hmem with rfl | hm
        · exact Or.inl (Or.inr ⟨rfl, hne⟩)
        · exact Or.inr ⟨hm, hne⟩

theorem countP_groupLoop (n : String) :
    ∀ (bs : List (String × List FileInfo)) (used : List String) (k : Nat),
      (groupLoop bs used k).countP (fun g => decide (n ∈ g.files)) =
        if n ∉ used ∧ ∃ p ∈ bs, ∃ f ∈ p.2, f.filename = n then 1 else 0 := by
  intro bs
  induction bs with
  | nil => intro used k; simp [groupLoop]
  | cons b rest ih =>
    obtain ⟨tag, files⟩ := b
    intro used k
    simp only [groupLoop]
    by_cases hgf : (files.filter (fun f => decide (f.filename ∉ used))).isEmpty
    · rw [if_pos hgf, ih used k]
      have hfiles : ∀ f ∈ files, f.filename ∈ used := by
        intro f hf
        by_contra hnot
        have h1 : f ∈ files.filter (fun f => decide (f.filename ∉ used)) :=
          List.mem_filter.mpr ⟨hf, by simpa using hnot⟩
        rw [List.isEmpty_iff.mp hgf] at h1
        exact absurd h1 (List.not_mem_nil f)
      apply if_congr _ rfl rfl
      constructor
      · rintro ⟨hnu, p, hp, f, hf, hfn⟩
        exact ⟨hnu, p, List.mem_cons_of_mem _ hp, f, hf, hfn⟩
      · rintro ⟨hnu, p, hp, f, hf, hfn⟩
        rcases List.mem_cons.mp hp with rfl | hp'
        · exact absurd (hfn ▸ hfiles f hf) hnu
        · exact ⟨hnu, p, hp', f, hf, hfn⟩
    · rw [if_neg hgf, List.countP_cons, ih]
      set gf := files.filter (fun f => decide (f.filename ∉ used)) with hgfdef
      by_cases hmem : n ∈ gf.map (fun f => f.filename)
      · obtain ⟨f, hfgf, hfn⟩ := List.mem_map.mp hmem
        have hfnotused : n ∉ used := by
          have := List.mem_filter.mp hfgf
          simpa [hfn] using this.2
        have hffiles : f ∈ files := (List.mem_filter.mp hfgf).1
        have hC1 : ¬(n ∉ used ++ gf.map (fun f => f.filename) ∧
            ∃ p ∈ rest, ∃ f ∈ p.2, f.filename = n) := by
          rintro ⟨h, -⟩
          exact h (List.mem_append.mpr (Or.inr hmem))
        have hC3 : n ∉ used ∧
            ∃ p ∈ (tag, files) :: rest, ∃ f ∈ p.2, f.filename = n :=
          ⟨hfnotused, (tag, files), List.mem_cons_self _ _, f, hffiles, hfn⟩
        rw [if_neg hC1, if_pos hC3]
        simp [hmem]
      · by_cases hused : n ∈ used
        · have hC1 : ¬(n ∉ used ++ gf.map (fun f => f.filename) ∧
              ∃ p ∈ rest, ∃ f ∈ p.2, f.filename = n) := by
            rintro ⟨h, -⟩
            exact h (List.mem_append.mpr (Or.inl hused))
          have hC3 : ¬(n ∉ used ∧
              ∃ p ∈ (tag, files) :: rest, ∃ f ∈ p.2, f.filename = n) := by
            rintro ⟨h, -⟩; exact h hused
          rw [if_neg hC1, if_neg hC3]
          simp [hmem]
        · have hnotfiles : ¬∃ f ∈ files, f.filename = n := by
            rintro ⟨f, hf, hfn⟩
            exact hmem (List.mem_map.mpr ⟨f, List.mem_filter.mpr ⟨hf, by simp [hfn, hused]⟩, hfn⟩)
          have hused' : n ∉ used ++ gf.map (fun f => f.filename) := by
            intro h
            rcases List.mem_append.mp h with h | h
            · exact hused h
            · exact hmem h
          by_cases hEx : ∃ p ∈ rest, ∃ f ∈ p.2, f.filename = n
          · have hC3 : n ∉ used ∧
                ∃ p ∈ (tag, files) :: rest, ∃ f ∈ p.2, f.filename = n := by
              refine ⟨hused, ?_⟩
              obtain ⟨p, hp, f, hf, hfn⟩ := hEx
              exact ⟨p, List.mem_cons_of_mem _ hp, f, hf, hfn⟩
            rw [if_pos ⟨hused', hEx⟩, if_pos hC3]
            simp [hmem]
          · have hC3 : ¬(n ∉ used ∧
                ∃ p ∈ (tag, files) :: rest, ∃ f ∈ p.2, f.filename = n) := by
              rintro ⟨-, p, hp, f, hf, hfn⟩
              rcases List.mem_cons.mp hp with rfl | hp'
              · exact hnotfiles ⟨f, hf, hfn⟩
              · exact hEx ⟨p, hp', f, hf, hfn⟩
            rw [if_neg (fun h => hEx h.2), if_neg hC3]
            simp [hmem]

theorem groupLoop_files_ne_nil :
    ∀ (bs : List (String × List FileInfo)) (used : List String) (k : Nat),
      ∀ g ∈ groupLoop bs used k, g.files ≠ [] := by
  intro bs
  induction bs with
  | nil => simp [groupLoop]
  | cons b rest ih =>
    obtain ⟨tag, files⟩ := b
    intro used k g hg
    simp only [groupLoop] at hg
    by_cases hgf : (files.filter (fun f => decide (f.filename ∉ used))).isEmpty
    · rw [if_pos hgf] at hg
      exact ih used k g hg
    · rw [if_neg hgf] at hg
      rcases List.mem_cons.mp hg with rfl | hg'
      · intro hfe
        have h2 : List.map (fun f => f.filename)
            (files.filter (fun f => decide (f.filename ∉ used))) = [] := hfe
        have h3 : files.filter (fun f => decide (f.filename ∉ used)) = [] :=
          List.map_eq_nil_iff.mp h2
        rw [h3] at hgf
        exact hgf rfl
      · exact ih _ _ g hg'

/-! ### Character-level models of the Python `str` operations used by the
source. They operate on `List Char` (`String.data`) so that every theorem
can be settled by kernel evaluation; Python's `str` is likewise a sequence
of code points. Only ASCII whitespace/case is modelled, which covers every
string the source manipulates structurally. -/

/-- `isPre pat s` is true when the character list `pat` is an initial
segment of `s` (the test behind Python `str.startswith` and slicing). -/
def isPre : List Char → List Char → Bool
  | [], _ => true
  | _ :: _, [] => false
  | p :: ps, c :: cs => p == c && isPre ps cs

/-- Python `pat in s`: `pat` occurs contiguously somewhere in `s`. -/
def containsSub (pat : List Char) : List Char → Bool
  | [] => isPre pat []
  | c :: cs => isPre pat (c :: cs) || containsSub pat cs

/-- Python `s.split(":", 1)[1]`: everything after the first `:`.
Total model; the source only evaluates it on lines known to contain `:`
(a line containing the tag marker contains one). -/
def afterColon : List Char → List Char
  | [] => []
  | c :: cs => if c = ':' then cs else afterColon cs

/-- Python `s.split(sep)` for a one-character separator. -/
def splitChar (sep : Char) : List Char → List (List Char)
  | [] => [[]]
  | c :: cs =>
    if c = sep then [] :: splitChar sep cs
    else
      match splitChar sep cs with
      | [] => [[c]]
      | t :: ts => (c :: t) :: ts

/-- The ASCII whitespace recognised by Python `str.strip()`. -/
def isSpaceChar (c : Char) : Bool :=
  c = ' ' || c = '\t' || c = '\n' || c = '\r' || c = '\x0b' || c = '\x0c'

/-- Python `s.strip()` (ASCII whitespace). -/
def pyStrip (s : List Char) : List Char :=
  ((s.dropWhile isSpaceChar).reverse.dropWhile isSpaceChar).reverse

/-- Python `s.lower()` on one character (ASCII case). -/
def lowerChar (c : Char) : Char :=
  if 'A' ≤ c ∧ c ≤ 'Z' then Char.ofNat (c.toNat + 32) else c

/-- Python `s.lower()` (ASCII case). -/
def pyLower (s : List Char) : List Char :=
  s.map lowerChar

/-- Python `s.lower()` on a whole `String`. -/
def pyLowerStr (s : String) : String :=
  String.mk (pyLower s.data)

/-- Python `s.endswith(suffix)`. -/
def pyEndsWith (s suffix : String) : Bool :=
  isPre suffix.data.reverse s.data.reverse

/-- Python `sep.join(parts)`. -/
def joinSep (sep : String) : List String → String
  | [] => ""
  | [s] => s
  | s :: rest => s ++ sep ++ joinSep sep rest

/-! ### The GPT tag extractor `extract_tags`
(src/gpt_md_classifier_app.py:89-104). The chat-completion call is an
external collaborator; it enters the model as the `Option String` reply
(`none` = the call raised, caught by the `except` that returns `[]`;
`some reply` = `res.choices[0].message.content`). -/

/-- The marker test of src/gpt_md_classifier_app.py:99:
`"태그:" in line or "Tags:" in line` (substring containment). -/
def hasTagMarker (line : List Char) : Bool :=
  containsSub "태그:".data line || containsSub "Tags:".data line

/-- src/gpt_md_classifier_app.py:100-101: split the marker line on its
first colon, then split on commas, strip each piece, drop empty pieces,
and lowercase the rest. -/
def parse_tag_line (line : List Char) : List String :=
  (splitChar ',' (afterColon line)).filterMap
    (fun t => if pyStrip t = [] then none else some (String.mk (pyLower (pyStrip t))))

/-- `extract_tags` (src/gpt_md_classifier_app.py:89-104), from the reply
on: strip the reply, scan its lines, and let every marker-carrying line
overwrite `tags`; a raised remote call yields `[]`. -/
def extract_tags (response : Option String) : List String :=
  match response with
  | none => []
  | some content =>
    (splitChar '\n' (pyStrip content.data)).foldl
      (fun tags line => if hasTagMarker line then parse_tag_line line else tags) []

theorem foldl_if_eq_getLast (f : List Char → List String) (p : List Char → Bool) :
    ∀ (lines : List (List Char)) (acc : List String),
      lines.foldl (fun tags line => if p line then f line else tags) acc =
        ((lines.filter p).getLast?.elim acc f) := by
  intro lines
  induction lines with
  | nil => intro acc; rfl
  | cons l ls ih =>
    intro acc
    rw [List.foldl_cons]
    by_cases h : p l = true
    · rw [if_pos h, ih, List.filter_cons_of_pos h]
      cases hfl : ls.filter p with
      | nil => rfl
      | cons x xs =>
        rw [List.getLast?_cons_cons]
        cases hl : (x :: xs).getLast? with
        | none => simp at hl
        | some y => rfl
    · rw [if_neg h, ih, List.filter_cons_of_neg (by simpa using h)]

/-- C7 (counterexample to the claim as stated): on the reply
`"xTags: a, b"`, no line starts with either tags marker, yet
`extract_tags` does not return the sentinel empty list — the code tests
the marker by substring containment (`"Tags:" in line`), not by a
line-initial match. -/
theorem extract_tags_marker_not_line_initial :
    extract_tags (some "xTags: a, b") = ["a", "b"] ∧
    (splitChar '\n' (pyStrip "xTags: a, b".data)).all
      (fun line => !(isPre "태그:".data line || isPre "Tags:".data line)) = true := by
  exact ⟨rfl, rfl⟩

/-- C7 (amended): `extract_tags` parses the (stripped) model reply by
scanning its lines for lines *containing* the tags marker (`"태그:"` or
`"Tags:"`); the *last* such line determines the result: it is split on its
first colon and the remainder yields the comma-separated, stripped,
lowercased, non-empty tags. When the remote call fails (`none`) or no
line contains a marker, the sentinel empty tag list is returned. -/
theorem extract_tags_spec (content : String) :
    extract_tags (some content) =
      (((splitChar '\n' (pyStrip content.data)).filter hasTagMarker).getLast?.elim []
        (fun line => (splitChar ',' (afterColon line)).filterMap
          (fun t => if pyStrip t = [] then none else some (String.mk (pyLower (pyStrip t))))))
    ∧ extract_tags none = [] := by
  refine ⟨?_, rfl⟩
  show (splitChar '\n' (pyStrip content.data)).foldl
      (fun tags line => if hasTagMarker line then parse_tag_line line else tags) [] = _
  rw [foldl_if_eq_getLast parse_tag_line hasTagMarker]
  rfl

/-- C1: the tag-bucketing grouper `group_by_tags` assigns every filename
carried by a file with at least one tag to exactly one group, assigns a
filename carried only by files with an empty tag list to zero groups (so no
filename ever appears in two groups), and every produced group is nonempty
(a tag with no remaining unclaimed files produces no group). -/
theorem group_by_tags_partition (file_infos : List FileInfo) (n : String) :
    ((group_by_tags file_infos).countP (fun g => decide (n ∈ g.files)) =
      if ∃ info ∈ file_infos, info.filename = n ∧ info.tags ≠ [] then 1 else 0)
    ∧ ∀ g ∈ group_by_tags file_infos, g.files ≠ [] := by
  constructor
  · rw [group_by_tags, countP_groupLoop]
    apply if_congr _ rfl rfl
    constructor
    · rintro ⟨-, p, hp, f, hf, hfn⟩
      have hx : f ∈ file_infos ∧ f.tags ≠ [] :=
        (mem_tag_to_files file_infos f).mp ⟨p, hp, hf⟩
      exact ⟨f, hx.1, hfn, hx.2⟩
    · rintro ⟨info, hmem, hfn, hne⟩
      obtain ⟨p, hp, hx⟩ := (mem_tag_to_files file_infos info).mpr ⟨hmem, hne⟩
      exact ⟨List.not_mem_nil n, p, hp, info, hx, hfn⟩
  · exact groupLoop_files_ne_nil _ _ _

/-- C10: on the three files `a.txt` (tags `["x"]`), `b.txt` (tags
`["x","y"]`), `c.txt` (tags `["y"]`), `group_by_tags` yields exactly two
groups in first-seen tag order: Group 1 for tag `x` with `a.txt` and
`b.txt`, and Group 2 for tag `y` with only `c.txt` (`b.txt` already
claimed); no filename appears twice across groups. -/
theorem group_by_tags_example :
    ((group_by_tags
        [⟨"a.txt", "", ["x"]⟩, ⟨"b.txt", "", ["x", "y"]⟩, ⟨"c.txt", "", ["y"]⟩]).map
        (fun g => (g.name, g.files)) =
      [("Group 1: x", ["a.txt", "b.txt"]), ("Group 2: y", ["c.txt"])])
    ∧ ((group_by_tags
        [⟨"a.txt", "", ["x"]⟩, ⟨"b.txt", "", ["x", "y"]⟩, ⟨"c.txt", "", ["y"]⟩]).flatMap
        (fun g => g.files)).Nodup := by
  constructor
  · rfl
  · decide

/-! ## The embedding-pipeline variant (src/app.py) -/

namespace EmbApp

/-- A Streamlit `UploadedFile`: a named byte stream with a read cursor.
`file.read()` returns the bytes from the cursor on and leaves the cursor
at the end of the stream. -/
structure UploadFile where
  name : String
  content : List Nat
  pos : Nat
deriving Repr, DecidableEq

/-- Python `file.read()` with no argument. -/
def readAll (f : UploadFile) : List Nat × UploadFile :=
  (f.content.drop f.pos, { f with pos := f.content.length })

/-- Strict UTF-8 decoding of a byte list, as Python
`bytes.decode("utf-8")`: rejects stray continuation bytes, overlong
forms, surrogates and values above `0x10FFFF`; `none` models the raised
`UnicodeDecodeError`. -/
def utf8Decode : List Nat → Option (List Char)
  | [] => some []
  | b :: rest =>
    if b < 0x80 then
      (utf8Decode rest).map (fun cs => Char.ofNat b :: cs)
    else if b < 0xC2 then none
    else if b < 0xE0 then
      match rest with
      | b1 :: rest' =>
        if 0x80 ≤ b1 && b1 < 0xC0 then
          (utf8Decode rest').map (fun cs => Char.ofNat ((b - 0xC0) * 64 + (b1 - 0x80)) :: cs)
        else none
      | [] => none
    else if b < 0xF0 then
      match rest with
      | b1 :: b2 :: rest' =>
        if (0x80 ≤ b1 && b1 < 0xC0) && (0x80 ≤ b2 && b2 < 0xC0) then
          let v := (b - 0xE0) * 4096 + (b1 - 0x80) * 64 + (b2 - 0x80)
          if v < 0x800 || (0xD800 ≤ v && v ≤ 0xDFFF) then none
          else (utf8Decode rest').map (fun cs => Char.ofNat v :: cs)
        else none
      | _ => none
    else if b < 0xF5 then
      match rest with
      | b1 :: b2 :: b3 :: rest' =>
        if ((0x80 ≤ b1 && b1 < 0xC0) && (0x80 ≤ b2 && b2 < 0xC0)) && (0x80 ≤ b3 && b3 < 0xC0) then
          let v := (b - 0xF0) * 262144 + (b1 - 0x80) * 4096 + (b2 - 0x80) * 64 + (b3 - 0x80)
          if v < 0x10000 || 0x110000 ≤ v then none
          else (utf8Decode rest').map (fun cs => Char.ofNat v :: cs)
        else none
      | _ => none
    else none

/-- The per-file warning of src/app.py:42 (the interpolated exception
text is elided). -/
def warnExtractMsg (name : String) : String :=
  "⚠️ 파일 " ++ name ++ " 텍스트 추출 실패"

/-- The result of one `extract_text_for_embedding` call: the returned
text, the file object after the call (its cursor may have advanced), and
the warnings emitted inside the call. -/
structure ExtractOut where
  text : String
  file : UploadFile
  warnings : List String
deriving Repr

/-- `extract_text_for_embedding` (src/app.py:29-43). The `pdfplumber`
library is external; `pdfO f` is the page list it extracts from the file
object (`none` = it raised; each page is `page.extract_text()`, `none`
for a page with no extractable text). The model leaves the cursor of a
PDF file unchanged — nothing downstream reads a PDF stream again. -/
def extract_text_for_embedding (pdfO : UploadFile → Option (List (Option String)))
    (f : UploadFile) : ExtractOut :=
  let name := pyLowerStr f.name
  if pyEndsWith name ".pdf" then
    match pdfO f with
    | some pages => ⟨joinSep "\n" (pages.map (fun p => p.getD "")), f, []⟩
    | none => ⟨"", f, [warnExtractMsg f.name]⟩
  else if pyEndsWith name ".md" then
    let r := readAll f
    match utf8Decode r.1 with
    | some cs => ⟨String.mk cs, r.2, []⟩
    | none => ⟨"", r.2, [warnExtractMsg f.name]⟩
  else if pyEndsWith name ".txt" then
    let r := readAll f
    match utf8Decode r.1 with
    | some cs => ⟨String.mk cs, r.2, []⟩
    | none => ⟨"", r.2, [warnExtractMsg f.name]⟩
  else ⟨"", f, []⟩

/-- `get_embedding` (src/app.py:48-59). The OpenAI embeddings endpoint
is external; `embedO` maps the requested input to the returned vector or
to the raised error. The vector type is abstract. -/
def get_embedding {α : Type} (embedO : String → Except String α) (text : String) :
    Except String α :=
  if pyStrip text.data = [] then
    Except.error "⚠️ 빈 텍스트는 임베딩할 수 없습니다."
  else
    match embedO (String.mk (text.data.take 8000)) with
    | Except.ok v => Except.ok v
    | Except.error e => Except.error ("❌ 임베딩 생성 중 오류: " ++ e)

/-- The per-file warning of src/app.py:178. -/
def warnEmptyMsg (name : String) : String :=
  "⚠️ " ++ name ++ " 는 빈 문서입니다."

/-- The upload-processing loop (src/app.py:173-185). For each file:
`raw_bytes = file.read()`, then the extractor runs on the same handle; a
file whose extracted text strips to empty is warned about and skipped;
otherwise `get_embedding` runs, and an error it raises aborts the whole
loop (it propagates to the outer `try` of src/app.py:220). On success it
returns the per-file records `(name, raw_bytes, text, embedding)` and
the warnings, in order. -/
def processLoop {α : Type} (pdfO : UploadFile → Option (List (Option String)))
    (embedO : String → Except String α) :
    List UploadFile → Except String (List (String × List Nat × String × α) × List String)
  | [] => Except.ok ([], [])
  | f :: rest =>
    let r := readAll f
    let eo := extract_text_for_embedding pdfO r.2
    if pyStrip eo.text.data = [] then
      match processLoop pdfO embedO rest with
      | Except.ok p => Except.ok (p.1, eo.warnings ++ warnEmptyMsg f.name :: p.2)
      | Except.error e => Except.error e
    else
      match get_embedding embedO eo.text with
      | Except.error e => Except.error e
      | Except.ok emb =>
        match processLoop pdfO embedO rest with
        | Except.ok p => Except.ok ((f.name, r.1, eo.text, emb) :: p.1, eo.warnings ++ p.2)
        | Except.error e => Except.error e

theorem isPre_head_eq {a b : Char} {p q l : List Char}
    (ha : isPre (a :: p) l = true) (hb : isPre (b :: q) l = true) : a = b := by
  cases l with
  | nil => simp [isPre] at ha
  | cons c cs =>
    simp only [isPre, Bool.and_eq_true, beq_iff_eq] at ha hb
    exact ha.1.trans hb.1.symm

theorem not_pdf_of_md {s : String} (h : pyEndsWith s ".md" = true) :
    pyEndsWith s ".pdf" = false := by
  cases hp : pyEndsWith s ".pdf" with
  | false => rfl
  | true =>
    have h1 : isPre ('d' :: ['m', '.']) s.data.reverse = true := h
    have h2 : isPre ('f' :: ['d', 'p', '.']) s.data.reverse = true := hp
    exact absurd (isPre_head_eq h1 h2) (by decide)

theorem not_pdf_of_txt {s : String} (h : pyEndsWith s ".txt" = true) :
    pyEndsWith s ".pdf" = false := by
  cases hp : pyEndsWith s ".pdf" with
  | false => rfl
  | true =>
    have h1 : isPre ('t' :: ['x', 't', '.']) s.data.reverse = true := h
    have h2 : isPre ('f' :: ['d', 'p', '.']) s.data.reverse = true := hp
    exact absurd (isPre_head_eq h1 h2) (by decide)

theorem not_md_of_txt {s : String} (h : pyEndsWith s ".txt" = true) :
    pyEndsWith s ".md" = false := by
  cases hp : pyEndsWith s ".md" with
  | false => rfl
  | true =>
    have h1 : isPre ('t' :: ['x', 't', '.']) s.data.reverse = true := h
    have h2 : isPre ('d' :: ['m', '.']) s.data.reverse = true := hp
    exact absurd (isPre_head_eq h1 h2) (by decide)

theorem extract_after_read (pdfO : UploadFile → Option (List (Option String)))
    (f : UploadFile)
    (hext : pyEndsWith (pyLowerStr f.name) ".md" = true
      ∨ pyEndsWith (pyLowerStr f.name) ".txt" = true) :
    extract_text_for_embedding pdfO (readAll f).2 = ⟨"", (readAll f).2, []⟩ := by
  obtain ⟨nm, ct, ps⟩ := f
  rcases hext with h | h
  · simp only [pyLowerStr] at h
    simp [extract_text_for_embedding, readAll, not_pdf_of_md h, h, pyLowerStr,
      List.drop_length]
    rfl
  · simp only [pyLowerStr] at h
    simp [extract_text_for_embedding, readAll, not_pdf_of_txt h, not_md_of_txt h, h, pyLowerStr,
      List.drop_length]
    rfl

/-- C2: in the embedding pipeline, an `.md` or `.txt` upload whose read
cursor is at the start is first fully read into `raw_bytes`
(src/app.py:174); the extractor then reads the same exhausted handle
(src/app.py:175 and 36-38), so the extracted text is `""` regardless of
the file's bytes, and the loop warns that the file is empty and excludes
it from the embedded documents (src/app.py:177-179). -/
theorem double_read_yields_empty {α : Type}
    (pdfO : UploadFile → Option (List (Option String)))
    (embedO : String → Except String α) (f : UploadFile) (rest : List UploadFile)
    (hext : pyEndsWith (pyLowerStr f.name) ".md" = true
      ∨ pyEndsWith (pyLowerStr f.name) ".txt" = true)
    (hpos : f.pos = 0) :
    (readAll f).1 = f.content ∧
    (extract_text_for_embedding pdfO (readAll f).2).text = "" ∧
    processLoop pdfO embedO (f :: rest) =
      (processLoop pdfO embedO rest).map (fun p => (p.1, warnEmptyMsg f.name :: p.2)) := by
  have hx := extract_after_read pdfO f hext
  refine ⟨by simp [readAll, hpos], by rw [hx], ?_⟩
  simp only [processLoop]
  rw [hx]
  have hempty : pyStrip ("" : String).data = [] := rfl
  cases hrest : processLoop pdfO embedO rest with
  | ok p => simp [hrest, hempty, Except.map]
  | error e => simp [hrest, hempty, Except.map]

/-- C2 witness: the `.md` file named `a.md` with bytes `"hi"` and cursor
at the start is fully read, extracts to `""`, and is excluded with the
empty-document warning. -/
theorem double_read_yields_empty_witness :
    (readAll (⟨"a.md", [104, 105], 0⟩ : UploadFile)).1 = [104, 105] ∧
    (extract_text_for_embedding (fun _ => none)
      (readAll (⟨"a.md", [104, 105], 0⟩ : UploadFile)).2).text = "" ∧
    processLoop (fun _ => none) (fun _ => (Except.error "e" : Except String Unit))
      [⟨"a.md", [104, 105], 0⟩] = Except.ok ([], [warnEmptyMsg "a.md"]) := by
  have h := double_read_yields_empty (fun _ => none)
    (fun _ => (Except.error "e" : Except String Unit))
    ⟨"a.md", [104, 105], 0⟩ [] (Or.inl rfl) rfl
  refine ⟨h.1, h.2.1, ?_⟩
  rw [h.2.2]
  rfl

/-- C6: the extractor's contract (src/app.py:29-43) together with the
loop's exclusion rule (src/app.py:175-185): an unsupported extension
yields `""` silently; a raised extraction error (the PDF library raising,
or UTF-8 decoding failing) is caught, warned about per file, and yields
`""`; a successful extraction returns the extracted text (pages joined
by newlines for PDF, the decoded bytes for `.md`/`.txt`); and any file
whose extracted text strips to empty contributes no record to the
downstream lists. -/
theorem extract_text_contract {α : Type}
    (pdfO : UploadFile → Option (List (Option String)))
    (embedO : String → Except String α) (f : UploadFile) (rest : List UploadFile) :
    (pyEndsWith (pyLowerStr f.name) ".pdf" = false →
     pyEndsWith (pyLowerStr f.name) ".md" = false →
     pyEndsWith (pyLowerStr f.name) ".txt" = false →
      extract_text_for_embedding pdfO f = ⟨"", f, []⟩) ∧
    (pyEndsWith (pyLowerStr f.name) ".pdf" = true → pdfO f = none →
      extract_text_for_embedding pdfO f = ⟨"", f, [warnExtractMsg f.name]⟩) ∧
    ((pyEndsWith (pyLowerStr f.name) ".md" = true
        ∨ pyEndsWith (pyLowerStr f.name) ".txt" = true) →
     utf8Decode (readAll f).1 = none →
      extract_text_for_embedding pdfO f = ⟨"", (readAll f).2, [warnExtractMsg f.name]⟩) ∧
    (pyEndsWith (pyLowerStr f.name) ".pdf" = true → ∀ pages, pdfO f = some pages →
      extract_text_for_embedding pdfO f =
        ⟨joinSep "\n" (pages.map (fun p => p.getD "")), f, []⟩) ∧
    ((pyEndsWith (pyLowerStr f.name) ".md" = true
        ∨ pyEndsWith (pyLowerStr f.name) ".txt" = true) →
     ∀ cs, utf8Decode (readAll f).1 = some cs →
      extract_text_for_embedding pdfO f = ⟨String.mk cs, (readAll f).2, []⟩) ∧
    (pyStrip (extract_text_for_embedding pdfO (readAll f).2).text.data = [] →
      processLoop pdfO embedO (f :: rest) =
        (processLoop pdfO embedO rest).map
          (fun p => (p.1, (extract_text_for_embedding pdfO (readAll f).2).warnings
            ++ warnEmptyMsg f.name :: p.2))) := by
  refine ⟨?_, ?_, ?_, ?_, ?_, ?_⟩
  · intro h1 h2 h3
    simp [extract_text_for_embedding, h1, h2, h3]
  · intro h1 h2
    simp [extract_text_for_embedding, h1, h2]
  · intro hext hdec
    rcases hext with h | h
    · simp [extract_text_for_embedding, not_pdf_of_md h, h, hdec]
    · simp [extract_text_for_embedding, not_pdf_of_txt h, not_md_of_txt h, h, hdec]
  · intro h1 pages h2
    simp [extract_text_for_embedding, h1, h2]
  · intro hext cs hdec
    rcases hext with h | h
    · simp [extract_text_for_embedding, not_pdf_of_md h, h, hdec]
    · simp [extract_text_for_embedding, not_pdf_of_txt h, not_md_of_txt h, h, hdec]
  · intro hempty
    simp only [processLoop]
    cases hrest : processLoop pdfO embedO rest with
    | ok p => simp [hrest, hempty, Except.map]
    | error e => simp [hrest, hempty, Except.map]

/-- C6 witness: concrete files exercising every branch — an unsupported
`.doc`, a failing PDF, undecodable `.txt` bytes, a PDF with two pages, a
one-byte `.md`, and a genuinely empty `.txt` excluded by the loop. -/
theorem extract_text_contract_witness :
    extract_text_for_embedding (fun _ => none) (⟨"a.doc", [1], 0⟩ : UploadFile) =
      ⟨"", ⟨"a.doc", [1], 0⟩, []⟩ ∧
    extract_text_for_embedding (fun _ => none) (⟨"b.pdf", [], 0⟩ : UploadFile) =
      ⟨"", ⟨"b.pdf", [], 0⟩, [warnExtractMsg "b.pdf"]⟩ ∧
    extract_text_for_embedding (fun _ => none) (⟨"c.txt", [255], 0⟩ : UploadFile) =
      ⟨"", (readAll (⟨"c.txt", [255], 0⟩ : UploadFile)).2, [warnExtractMsg "c.txt"]⟩ ∧
    extract_text_for_embedding (fun _ => some [some "pg", none]) (⟨"b.pdf", [], 0⟩ : UploadFile) =
      ⟨joinSep "\n" ["pg", ""], ⟨"b.pdf", [], 0⟩, []⟩ ∧
    extract_text_for_embedding (fun _ => none) (⟨"e.md", [104], 0⟩ : UploadFile) =
      ⟨String.mk ['h'], (readAll (⟨"e.md", [104], 0⟩ : UploadFile)).2, []⟩ ∧
    processLoop (fun _ => none) (fun _ => (Except.error "e" : Except String Unit))
      [⟨"d.txt", [], 0⟩] = Except.ok ([], [warnEmptyMsg "d.txt"]) := by
  refine ⟨(extract_text_contract (fun _ => none)
      (fun _ => (Except.error "e" : Except String Unit)) ⟨"a.doc", [1], 0⟩ []).1 rfl rfl rfl,
    (extract_text_contract (fun _ => none)
      (fun _ => (Except.error "e" : Except String Unit)) ⟨"b.pdf", [], 0⟩ []).2.1 rfl rfl,
    (extract_text_contract (fun _ => none)
      (fun _ => (Except.error "e" : Except String Unit)) ⟨"c.txt", [255], 0⟩ []).2.2.1
      (Or.inr rfl) rfl,
    (extract_text_contract (fun _ => some [some "pg", none])
      (fun _ => (Except.error "e" : Except String Unit)) ⟨"b.pdf", [], 0⟩ []).2.2.2.1
      rfl [some "pg", none] rfl,
    (extract_text_contract (fun _ => none)
      (fun _ => (Except.error "e" : Except String Unit)) ⟨"e.md", [104], 0⟩ []).2.2.2.2.1
      (Or.inl rfl) ['h'] rfl,
    ?_⟩
  rw [(extract_text_contract (fun _ => none)
    (fun _ => (Except.error "e" : Except String Unit)) ⟨"d.txt", [], 0⟩ []).2.2.2.2.2 rfl]
  rfl

/-- C5: `get_embedding` (src/app.py:48-59) errors on every input that
strips to whitespace (the explicit precondition); for non-empty input it
requests the embedding of the text truncated to its first 8000
characters, returns the resulting vector on success, and re-raises a
wrapped error with context when the remote call fails. -/
theorem get_embedding_contract {α : Type} (embedO : String → Except String α) (text : String) :
    (pyStrip text.data = [] →
      get_embedding embedO text = Except.error "⚠️ 빈 텍스트는 임베딩할 수 없습니다.") ∧
    (pyStrip text.data ≠ [] →
      (∀ e, embedO (String.mk (text.data.take 8000)) = Except.error e →
        get_embedding embedO text = Except.error ("❌ 임베딩 생성 중 오류: " ++ e)) ∧
      (∀ v, embedO (String.mk (text.data.take 8000)) = Except.ok v →
        get_embedding embedO text = Except.ok v)) := by
  refine ⟨fun h => by simp [get_embedding, h], fun h => ⟨fun e he => ?_, fun v hv => ?_⟩⟩
  · simp [get_embedding, h, he]
  · simp [get_embedding, h, hv]

/-- C5 witness: whitespace-only input errors; `"hi"` with a failing
remote call re-raises the wrapped error; `"hi"` with a successful call
returns the vector. -/
theorem get_embedding_contract_witness :
    get_embedding (fun _ => (Except.ok 5 : Except String Nat)) "  " =
      Except.error "⚠️ 빈 텍스트는 임베딩할 수 없습니다." ∧
    get_embedding (fun _ => (Except.error "boom" : Except String Nat)) "hi" =
      Except.error ("❌ 임베딩 생성 중 오류: " ++ "boom") ∧
    get_embedding (fun _ => (Except.ok 5 : Except String Nat)) "hi" = Except.ok 5 := by
  exact ⟨(get_embedding_contract (fun _ => (Except.ok 5 : Except String Nat)) "  ").1 rfl,
    ((get_embedding_contract (fun _ => (Except.error "boom" : Except String Nat)) "hi").2
      (by decide)).1 "boom" rfl,
    ((get_embedding_contract (fun _ => (Except.ok 5 : Except String Nat)) "hi").2
      (by decide)).2 5 rfl⟩

/-- The warning of src/app.py:188. -/
def clusterWarnMsg : String := "⚠️ 클러스터링을 위해 최소 2개 문서가 필요합니다."

/-- src/app.py:187-198: if fewer than 2 documents were embedded, warn
and stop (`st.stop()` — no clustering is attempted); otherwise the
cluster count comes from a slider with bounds `2` and
`min(10, len(embeddings))` — the slider constrains the user's choice to
those bounds, modelled by clamping `userChoice` into them. -/
def cluster_step (numEmbedded userChoice : Nat) : Option Nat × List String :=
  if numEmbedded < 2 then (none, [clusterWarnMsg])
  else (some (max 2 (min userChoice (min 10 numEmbedded))), [])

/-- C8: with exactly one embedded document the run warns and does not
cluster; with fewer than 2 no clustering happens; with at least 2 the
chosen cluster count is within `[2, min 10 numEmbedded]`. -/
theorem clustering_guard (n c : Nat) :
    (n = 1 → cluster_step n c = (none, [clusterWarnMsg])) ∧
    (n < 2 → (cluster_step n c).1 = none) ∧
    (2 ≤ n → ∃ k, (cluster_step n c).1 = some k ∧ 2 ≤ k ∧ k ≤ min 10 n) := by
  refine ⟨fun h => by simp [cluster_step, h], fun h => by simp [cluster_step, h], fun h => ?_⟩
  refine ⟨max 2 (min c (min 10 n)), ?_, by omega, by omega⟩
  simp [cluster_step, show ¬n < 2 by omega]

/-- C8 witness: 1 embedded document warns and stops; 3 embedded
documents with slider choice 7 cluster with a count in `[2, 3]`. -/
theorem clustering_guard_witness :
    cluster_step 1 5 = (none, [clusterWarnMsg]) ∧
    (∃ k, (cluster_step 3 7).1 = some k ∧ 2 ≤ k ∧ k ≤ min 10 3) := by
  exact ⟨(clustering_guard 1 5).1 rfl, (clustering_guard 3 7).2.2 (by decide)⟩

end EmbApp

/-! ### A filesystem model shared by both archive builders.
A filesystem is an association list from absolute path to file content;
zip archives are modelled as their entry lists (entry name, entry
content), which makes "extracting an entry reproduces the written
content" literal equality of contents. -/

/-- Content of a file on disk: raw bytes (`"wb"` writes), text
(`"w"` writes), or a finished zip archive (its entries). -/
inductive FContent where
  | bytes : List Nat → FContent
  | text : String → FContent
  | zipArchive : List (String × FContent) → FContent

/-- The files on disk: path ↦ content. -/
abbrev FS := List (String × FContent)

/-- `open(p, "w"/"wb")` followed by a write: replaces any previous file
at `p`. -/
def writeFS (fs : FS) (p : String) (c : FContent) : FS :=
  fs.filter (fun e => e.1 ≠ p) ++ [(p, c)]

/-- Reading the file at `p`, `none` when it does not exist
(`FileNotFoundError`). -/
def lookupFS (fs : FS) (p : String) : Option FContent :=
  fs.lookup p

/-- `shutil.rmtree(dir)` / leaving a `TemporaryDirectory` context:
removes every file under `dir/`. -/
def rmtreeFS (fs : FS) (dir : String) : FS :=
  fs.filter (fun e => !(isPre (dir ++ "/").data e.1.data))

/-- `os.path.relpath(p, root)` for the only case the source uses:
`p` lying under `root/`. -/
def relpathFrom (root p : String) : String :=
  if isPre (root ++ "/").data p.data then String.mk (p.data.drop (root ++ "/").data.length)
  else p

theorem isPre_append_of_isPre {pat l1 : List Char} (l2 : List Char)
    (h : isPre pat l1 = true) : isPre pat (l1 ++ l2) = true := by
  induction pat generalizing l1 with
  | nil => rfl
  | cons p ps ih =>
    cases l1 with
    | nil => simp [isPre] at h
    | cons c cs =>
      simp only [isPre, Bool.and_eq_true, beq_iff_eq] at h
      rw [List.cons_append]
      simp only [isPre, Bool.and_eq_true, beq_iff_eq]
      exact ⟨h.1, ih h.2⟩

namespace EmbApp

/-- The error banner of src/app.py:151. -/
def errZipMsg (e : String) : String := "❌ ZIP 생성 중 오류 발생: " ++ e

/-- The inner loop of `create_cluster_zip` (src/app.py:126-132): write
each clustered document's raw bytes into its cluster folder. `failW p`
injects the filesystem error raised by writing to `p` (`none` = the
write succeeds). -/
def writeDocFiles (failW : String → Option String) (cluster_dir : String) :
    List (String × List Nat × String) → FS → Except String FS
  | [], fs => Except.ok fs
  | (filename, raw, _) :: rest, fs =>
    let path := cluster_dir ++ "/" ++ filename
    match failW path with
    | some e => Except.error e
    | none => writeDocFiles failW cluster_dir rest (writeFS fs path (FContent.bytes raw))

/-- The outer loop of `create_cluster_zip` (src/app.py:119-136): one
folder per cluster, member files, then the generated `README.md`.
`summarize_cluster_md` (src/app.py:74-107) catches its own exceptions
and returns the error text, so the summarizer is a total oracle. -/
def writeClusters (failW : String → Option String)
    (summarizer : List String → List String → String) (temp_dir : String) :
    List (Nat × List (String × List Nat × String)) → FS → Except String FS
  | [], fs => Except.ok fs
  | (cluster_id, docs) :: rest, fs =>
    let cluster_dir := temp_dir ++ "/cluster_" ++ toString cluster_id
    match writeDocFiles failW cluster_dir docs fs with
    | Except.error e => Except.error e
    | Except.ok fs1 =>
      let summary_md := summarizer (docs.map (fun d => d.2.2)) (docs.map (fun d => d.1))
      let readme_path := cluster_dir ++ "/README.md"
      match failW readme_path with
      | some e => Except.error e
      | none =>
        writeClusters failW summarizer temp_dir rest
          (writeFS fs1 readme_path (FContent.text summary_md))

/-- The `os.walk` zip phase of src/app.py:138-145: every file under the
scratch root whose name does not end in `.zip` becomes an entry named by
its path relative to the root, carrying the file's content. -/
def zipWalk (fs : FS) (temp_dir : String) : List (String × FContent) :=
  fs.filterMap (fun e =>
    if isPre (temp_dir ++ "/").data e.1.data && !(pyEndsWith e.1 ".zip") then
      some (relpathFrom temp_dir e.1, e.2)
    else none)

/-- `create_cluster_zip` (src/app.py:112-152): materialize the cluster
tree inside a fresh scratch directory, zip the walked tree (the zip file
itself, created first on disk, is skipped by the `.zip` test), read the
archive back, and return its bytes; the scratch directory is then
deleted by the `TemporaryDirectory` context. Any raised filesystem error
is caught by the outer `except`, reported via `st.error`, and `b""` is
returned instead of an archive. -/
def create_cluster_zip (failW : String → Option String)
    (summarizer : List String → List String → String) (temp_dir : String)
    (clustered_docs : List (Nat × List (String × List Nat × String))) :
    FContent × List String :=
  match writeClusters failW summarizer temp_dir clustered_docs [] with
  | Except.error e => (FContent.bytes [], [errZipMsg e])
  | Except.ok fs =>
    let zip_path := temp_dir ++ "/clustered_documents.zip"
    match failW zip_path with
    | some e => (FContent.bytes [], [errZipMsg e])
    | none =>
      let entries := zipWalk (writeFS fs zip_path (FContent.bytes [])) temp_dir
      (FContent.zipArchive entries, [])

/-- C4: archive building is all-or-nothing — either no write fails and
the result is the complete archive of the materialized tree with no
error surfaced, or some filesystem error occurs, the build aborts, the
error is surfaced to the caller, and the returned artifact is the empty
byte string (no partial archive is exposed). -/
theorem create_cluster_zip_atomic (failW : String → Option String)
    (summarizer : List String → List String → String) (temp_dir : String)
    (docs : List (Nat × List (String × List Nat × String))) :
    (∃ fs, writeClusters failW summarizer temp_dir docs [] = Except.ok fs ∧
      failW (temp_dir ++ "/clustered_documents.zip") = none ∧
      create_cluster_zip failW summarizer temp_dir docs =
        (FContent.zipArchive
          (zipWalk (writeFS fs (temp_dir ++ "/clustered_documents.zip") (FContent.bytes []))
            temp_dir), []))
    ∨ (∃ e, create_cluster_zip failW summarizer temp_dir docs =
        (FContent.bytes [], [errZipMsg e])) := by
  cases hw : writeClusters failW summarizer temp_dir docs [] with
  | error e => exact Or.inr ⟨e, by simp [create_cluster_zip, hw]⟩
  | ok fs =>
    cases hz : failW (temp_dir ++ "/clustered_documents.zip") with
    | some e => exact Or.inr ⟨e, by simp [create_cluster_zip, hw, hz]⟩
    | none => exact Or.inl ⟨fs, rfl, rfl, by simp [create_cluster_zip, hw, hz]⟩

theorem zip_path_ends_zip (temp_dir : String) :
    pyEndsWith (temp_dir ++ "/clustered_documents.zip") ".zip" = true := by
  obtain ⟨tdata⟩ := temp_dir
  show isPre ".zip".data.reverse (tdata ++ "/clustered_documents.zip".data).reverse = true
  rw [List.reverse_append]
  exact isPre_append_of_isPre _ (by decide)

/-- C9 (counterexample to the claim as stated): a member document named
`m.zip` is written into its group folder before compression, but the
walk of src/app.py:141-142 skips every file ending in `.zip`, not only
the output archive, so the produced archive misses it. -/
theorem zip_named_member_missing_from_archive :
    (writeClusters (fun _ => none) (fun _ _ => "S") "tmp" [(0, [("m.zip", [1, 2], "t")])] [] =
      Except.ok [("tmp/cluster_0/m.zip", FContent.bytes [1, 2]),
        ("tmp/cluster_0/README.md", FContent.text "S")]) ∧
    create_cluster_zip (fun _ => none) (fun _ _ => "S") "tmp" [(0, [("m.zip", [1, 2], "t")])] =
      (FContent.zipArchive [("cluster_0/README.md", FContent.text "S")], []) :=
  ⟨rfl, rfl⟩

/-- C9 (amended): in an error-free build, every file of the materialized
tree lying under the scratch root whose name does not end in `.zip`
appears in the produced archive under its path relative to the root,
with byte-identical content. -/
theorem create_cluster_zip_roundtrip
    (summarizer : List String → List String → String) (temp_dir : String)
    (docs : List (Nat × List (String × List Nat × String))) (fs : FS)
    (hok : writeClusters (fun _ => none) summarizer temp_dir docs [] = Except.ok fs)
    (p : String) (c : FContent) (hmem : (p, c) ∈ fs)
    (hunder : isPre (temp_dir ++ "/").data p.data = true)
    (hnotzip : pyEndsWith p ".zip" = false) :
    ∃ entries, create_cluster_zip (fun _ => none) summarizer temp_dir docs =
        (FContent.zipArchive entries, []) ∧
      (relpathFrom temp_dir p, c) ∈ entries := by
  have hc : create_cluster_zip (fun _ => none) summarizer temp_dir docs =
      (FContent.zipArchive
        (zipWalk (writeFS fs (temp_dir ++ "/clustered_documents.zip") (FContent.bytes []))
          temp_dir), []) := by
    simp [create_cluster_zip, hok]
  refine ⟨_, hc, ?_⟩
  have hne : p ≠ temp_dir ++ "/clustered_documents.zip" := by
    intro he
    rw [he, zip_path_ends_zip] at hnotzip
    cases hnotzip
  apply List.mem_filterMap.mpr
  refine ⟨(p, c),
    List.mem_append.mpr (Or.inl (List.mem_filter.mpr ⟨hmem, by simpa using hne⟩)), ?_⟩
  simp only [hunder, hnotzip]
  rfl

/-- C9 witness: a one-document cluster; the written member
`tmp/cluster_0/a.txt` reappears in the archive as `cluster_0/a.txt`
with its exact bytes. -/
theorem create_cluster_zip_roundtrip_witness :
    ∃ entries, create_cluster_zip (fun _ => none) (fun _ _ => "S") "tmp"
        [(0, [("a.txt", [7], "t")])] = (FContent.zipArchive entries, []) ∧
      (relpathFrom "tmp" "tmp/cluster_0/a.txt", FContent.bytes [7]) ∈ entries :=
  create_cluster_zip_roundtrip (fun _ _ => "S") "tmp" [(0, [("a.txt", [7], "t")])]
    [("tmp/cluster_0/a.txt", FContent.bytes [7]), ("tmp/cluster_0/README.md", FContent.text "S")]
    rfl "tmp/cluster_0/a.txt" (FContent.bytes [7]) (List.mem_cons_self _ _) rfl rfl

end EmbApp

/-! ### The grouping run of `gpt_md_classifier_app.py` (lines 181-228)
and its download box (lines 136-143), traced over the filesystem
model for claim C3. -/

/-- The session keys set at src/gpt_md_classifier_app.py:217-218. -/
structure SessionState where
  zip_path : Option String
  analysis_done : Bool

/-- `topic.replace(" ", "_")` (src/gpt_md_classifier_app.py:187). -/
def replaceSpace (s : String) : String :=
  String.mk (s.data.map (fun c => if c = ' ' then '_' else c))

/-- One `- fname` bullet line per member file
(src/gpt_md_classifier_app.py:199-200). -/
def bulletLines : List String → String
  | [] => ""
  | f :: rest => "- " ++ f ++ "\n" ++ bulletLines rest

/-- The generated group `README.md`
(src/gpt_md_classifier_app.py:195-200); `kwLabel` is the localized
`T["keywords"]` label. -/
def readmeText (kwLabel : String) (g : Group) : String :=
  "# " ++ g.name ++ "\n\n" ++ "**" ++ kwLabel ++ ":** " ++ joinSep ", " g.keywords ++ "\n\n" ++
    "## 📄 파일 목록\n" ++ bulletLines g.files

/-- src/gpt_md_classifier_app.py:203-209: write each member file's
content into the group folder (`next(...)` picks the first matching
`file_infos` entry; a missing match writes nothing), extending
`saved_files`. -/
def writeMemberFiles (file_infos : List FileInfo) (folder : String) :
    List String → FS → List String → FS × List String
  | [], fs, saved => (fs, saved)
  | fname :: rest, fs, saved =>
    match file_infos.find? (fun i => i.filename == fname) with
    | some info =>
      writeMemberFiles file_infos folder rest
        (writeFS fs (folder ++ "/" ++ fname) (FContent.text info.content))
        (saved ++ [folder ++ "/" ++ fname])
    | none => writeMemberFiles file_infos folder rest fs saved

/-- src/gpt_md_classifier_app.py:186-209: one folder per group (name
sanitized), its `README.md`, then its member files. -/
def writeGroupFolders (kwLabel temp_dir : String) (file_infos : List FileInfo) :
    List Group → FS → List String → FS × List String
  | [], fs, saved => (fs, saved)
  | g :: rest, fs, saved =>
    let folder := temp_dir ++ "/" ++ replaceSpace g.name
    let readme_path := folder ++ "/README.md"
    let r := writeMemberFiles file_infos folder g.files
      (writeFS fs readme_path (FContent.text (readmeText kwLabel g)))
      (saved ++ [readme_path])
    writeGroupFolders kwLabel temp_dir file_infos rest r.1 r.2

/-- The analysis block of src/gpt_md_classifier_app.py:179-222 after tag
extraction: group, materialize the group folders inside a fresh
`tempfile.mkdtemp()` scratch directory, zip the `saved_files` into
`temp_dir/tag_grouped_markdowns.zip`, store the zip path and the done
flag in the session, and then *immediately* `shutil.rmtree(temp_dir)`
(line 222). Returns the filesystem as it was right after the zip was
written, the filesystem after the `rmtree`, and the session state. -/
def gptMdAnalysis (kwLabel temp_dir : String) (file_infos : List FileInfo) :
    FS × FS × SessionState :=
  let grouped := group_by_tags file_infos
  let r := writeGroupFolders kwLabel temp_dir file_infos grouped [] []
  let zip_path := temp_dir ++ "/tag_grouped_markdowns.zip"
  let entries := r.2.map
    (fun p => (relpathFrom temp_dir p, (lookupFS r.1 p).getD (FContent.bytes [])))
  let fsZip := writeFS r.1 zip_path (FContent.zipArchive entries)
  (fsZip, rmtreeFS fsZip temp_dir, { zip_path := some zip_path, analysis_done := true })

/-- The download box of src/gpt_md_classifier_app.py:136-143, run on the
rerun after the analysis: when the session says the analysis is done and
a zip path is stored, `open(st.session_state.zip_path, "rb")` reads the
archive and feeds `st.download_button`; a missing file raises
`FileNotFoundError`. -/
def gptMdDownload (fs : FS) (sess : SessionState) : Except String FContent :=
  if sess.analysis_done then
    match sess.zip_path with
    | some p =>
      match lookupFS fs p with
      | some c => Except.ok c
      | none => Except.error "FileNotFoundError"
    | none => Except.error "no archive available"
  else Except.error "no archive available"

/-- C3 (the code violates the claim): for the one-file run `a.md` with
tag `x`, the archive exists in the scratch directory right after it is
produced, but `shutil.rmtree` in the same rerun deletes the whole
scratch directory — archive included — *before* any download can read
it: the session then offers the archive, and opening the stored path
raises `FileNotFoundError`. The archive bytes are never read before the
scratch directory is deleted, contradicting the claim (and the app's own
caption that the folder is deleted *after* the ZIP download). -/
theorem temp_dir_removed_before_archive_read :
    (lookupFS (gptMdAnalysis "📌 태그" "tmp" [⟨"a.md", "hello", ["x"]⟩]).1
      "tmp/tag_grouped_markdowns.zip").isSome = true ∧
    (gptMdAnalysis "📌 태그" "tmp" [⟨"a.md", "hello", ["x"]⟩]).2.1 = [] ∧
    (gptMdAnalysis "📌 태그" "tmp" [⟨"a.md", "hello", ["x"]⟩]).2.2.analysis_done = true ∧
    (gptMdAnalysis "📌 태그" "tmp" [⟨"a.md", "hello", ["x"]⟩]).2.2.zip_path =
      some "tmp/tag_grouped_markdowns.zip" ∧
    gptMdDownload (gptMdAnalysis "📌 태그" "tmp" [⟨"a.md", "hello", ["x"]⟩]).2.1
      (gptMdAnalysis "📌 태그" "tmp" [⟨"a.md", "hello", ["x"]⟩]).2.2 =
      Except.error "FileNotFoundError" :=
  ⟨rfl, rfl, rfl, rfl, rfl⟩

end GptMdClassifier
